import Mathlib

/-!
Shallow embedding of the PlanWise event-service core: time normalization,
overlap detection, the in-memory event store (a JS `Map` keyed by id),
the advisory gateway's response post-processing, and the create / update /
delete workflows of `EventService`.  Timestamps are modelled as integer
epoch-millisecond instants (`Int`), which is exactly what
`new Date(x).getTime()` yields on the wire values the service receives.
The generative-model calls are I/O; each workflow therefore takes the raw
advisory response text (and, for `JSON.parse`, an arbitrary parse function)
as an explicit input, and the pure post-processing of those responses is
embedded faithfully.
-/

/-- Event priority, per the schema enum `['high', 'medium', 'low']`. -/
inductive Priority where
  | low
  | medium
  | high
  deriving DecidableEq, Repr

/-- Event mode, per the schema enum `['online', 'offline']`. -/
inductive Mode where
  | online
  | offline
  deriving DecidableEq, Repr

/-- `INormalizedEvent`: the stored representation; times are integer instants. -/
structure NEvent where
  id : String
  title : String
  description : String
  mode : Mode
  venue : String
  startTime : Int
  endTime : Int
  priority : Priority
  tags : List String
  deriving DecidableEq, Repr

/-- `IEvent` (= `IEventInput` plus `id`, with `priority` already resolved),
the argument type of `normalizeEvent`.  `Date` values are modelled by their
epoch-millisecond instant. -/
structure IEvent where
  id : String
  title : String
  description : String
  mode : Mode
  venue : String
  startTime : Int
  endTime : Int
  priority : Priority
  tags : List String
  deriving DecidableEq, Repr

/-- `IEventInput`, the zod-validated payload handed to the service.  The
schema defaults `priority`, but the service code still tests
`!createdEvent.priority`, so the field is kept optional here and the dead
branch is embedded. -/
structure EventInput where
  title : String
  description : String
  mode : Mode
  venue : String
  startTime : Int
  endTime : Int
  priority : Option Priority
  tags : List String
  deriving DecidableEq, Repr

/-- `new Date(d).getTime()` on an instant: the identity in this model. -/
def dateGetTime (d : Int) : Int := d

/-- `normalizeEvent` from `src/utils/event.util.ts`: converts the two time
fields via `getTime` and copies everything else. -/
def normalizeEvent (e : IEvent) : NEvent :=
  { id := e.id
    title := e.title
    description := e.description
    mode := e.mode
    venue := e.venue
    startTime := dateGetTime e.startTime
    endTime := dateGetTime e.endTime
    priority := e.priority
    tags := e.tags }

/-- `AiService.detectConflictsForEvent`: walks the schedule in order,
skips the entry whose id equals the candidate's id (`continue`), and keeps
an entry iff `event.startTime < existing.endTime && event.endTime >
existing.startTime`. -/
def detectConflictsForEvent (event : NEvent) : List NEvent → List NEvent
  | [] => []
  | existingEvent :: rest =>
    if existingEvent.id = event.id then
      detectConflictsForEvent event rest
    else if event.startTime < existingEvent.endTime ∧ event.endTime > existingEvent.startTime then
      existingEvent :: detectConflictsForEvent event rest
    else
      detectConflictsForEvent event rest

/-- JS `String.prototype.toLowerCase`, modelled character-wise. -/
def jsToLower (s : String) : String := String.mk (s.data.map Char.toLower)

/-- JS `String.prototype.trim`: drop whitespace from both ends. -/
def jsTrim (s : String) : String :=
  String.mk (((s.data.dropWhile Char.isWhitespace).reverse.dropWhile Char.isWhitespace).reverse)

/-- Pure post-processing of `AiService.generatePriority`: the raw model
response is lowercased and trimmed; if the result is exactly one of the
three tokens it is returned, otherwise the function falls back to
`'medium'`. -/
def generatePriority (raw : String) : String :=
  let text := jsTrim (jsToLower raw)
  if text = "low" ∨ text = "medium" ∨ text = "high" then text else "medium"

/-- Conversion of the priority token into the schema enum. -/
def priorityOfText (s : String) : Priority :=
  if s = "low" then .low else if s = "high" then .high else .medium

/-- Splits a character list at the first occurrence of `pat`, returning
the part before the occurrence and the part after it; `none` when `pat`
does not occur.  (Model of leftmost regex literal matching.) -/
def splitFirst (pat : List Char) : List Char → Option (List Char × List Char)
  | [] => none
  | c :: rest =>
    if List.isPrefixOf pat (c :: rest) then
      some ([], (c :: rest).drop pat.length)
    else
      match splitFirst pat rest with
      | none => none
      | some (pre, post) => some (c :: pre, post)

/-- The regex `/```json\n([\s\S]*?)\n```/` of `AiService.suggestBetterTime`:
the leftmost occurrence of the fence opener followed (non-greedily) by the
closer; `none` when the response carries no fenced JSON block. -/
def extractJsonBlock (text : String) : Option String :=
  match splitFirst ("```json\n".data) text.data with
  | none => none
  | some (_, after) =>
    match splitFirst ("\n```".data) after with
    | none => none
    | some (content, _) => some (String.mk content)

/-- The parsed advisory suggestion: `{ "startTime": "..." }`. -/
structure Suggestion where
  startTime : String
  deriving DecidableEq, Repr

/-- Pure post-processing of `AiService.suggestBetterTime`: extract the
fenced JSON block from the raw response and run `JSON.parse` on it
(`jsonParse` is the parse-or-throw capability, `none` modelling a thrown
parse error, which the service catches and turns into `null`); when no
block is found the service returns `null`. -/
def suggestBetterTime (jsonParse : String → Option Suggestion) (text : String) :
    Option Suggestion :=
  match extractJsonBlock text with
  | none => none
  | some block => jsonParse block

/-- A `JSON.parse` stand-in that always fails. -/
def noParse : String → Option Suggestion := fun _ => none

/-- The in-memory store: the value sequence of the JS `Map`, in insertion
order (`Array.from(events.values())`). -/
abbrev Store := List NEvent

/-- JS `Map.set(e.id, e)`: replace in place when the key is present
(keeping its position), append otherwise. -/
def mapSet (s : Store) (e : NEvent) : Store :=
  if ∃ x ∈ s, x.id = e.id then
    s.map (fun x => if x.id = e.id then e else x)
  else
    s ++ [e]

/-- JS `Map.delete(eventId)`: remove the keyed entry, keep the rest in order. -/
def mapDelete (s : Store) (eventId : String) : Store :=
  s.filter (fun x => x.id != eventId)

/-- The comparison underlying `sortEvents`' comparator
`(a, b) => a.startTime - b.startTime`. -/
def eventLe (a b : NEvent) : Prop := a.startTime ≤ b.startTime

instance : DecidableRel eventLe := fun a b => Int.decLe a.startTime b.startTime

instance : IsTotal NEvent eventLe := ⟨fun a b => Int.le_total a.startTime b.startTime⟩

instance : IsTrans NEvent eventLe := ⟨fun _ _ _ h1 h2 => le_trans h1 h2⟩

/-- `sortEvents` from `src/utils/event.util.ts`: a stable sort by
`startTime` (JS `Array.prototype.sort` is stable per ES2019). -/
def sortEvents (events : List NEvent) : List NEvent :=
  List.insertionSort eventLe events

/-- `EventService.getEvents`: the store's values, sorted by start time. -/
def getEvents (s : Store) : List NEvent :=
  sortEvents s

/-- `EventService.getEventById`. -/
def getEventById (eventId : String) (s : Store) : Option NEvent :=
  s.find? (fun e => e.id == eventId)

/-- `EventService.filterEventsByTag`: filter of the store's value sequence
by `event.tags.includes(tag)`. -/
def filterEventsByTag (tag : String) (s : Store) : List NEvent :=
  s.filter (fun e => e.tags.contains tag)

/-- The candidate that `EventService.createEvent` builds before its
conflict check: the input plus a fresh id, `priority` resolved through the
AI branch when absent, then `normalizeEvent`. -/
def createdCandidate (priorityRaw : String) (input : EventInput) (newId : String) : NEvent :=
  normalizeEvent
    { id := newId
      title := input.title
      description := input.description
      mode := input.mode
      venue := input.venue
      startTime := input.startTime
      endTime := input.endTime
      priority :=
        match input.priority with
        | some p => p
        | none => priorityOfText (generatePriority priorityRaw)
      tags := input.tags }

/-- Outcome of `EventService.createEvent`. -/
inductive CreateResult where
  | created (e : NEvent)
  | conflictReport (conflicts : List NEvent) (suggestion : Option Suggestion)
  deriving DecidableEq, Repr

/-- `EventService.createEvent`: build the candidate, detect conflicts
against the current store snapshot; on conflicts return them with the
advisory suggestion and leave the store untouched, otherwise commit via
`Map.set`.  `priorityRaw` and `suggestRaw` are the raw advisory response
texts, `jsonParse` the `JSON.parse` capability. -/
def createEvent (jsonParse : String → Option Suggestion) (priorityRaw suggestRaw : String)
    (input : EventInput) (newId : String) (store : Store) : CreateResult × Store :=
  let normalizedEvent := createdCandidate priorityRaw input newId
  let conflicts := detectConflictsForEvent normalizedEvent store
  if 0 < conflicts.length then
    (CreateResult.conflictReport conflicts (suggestBetterTime jsonParse suggestRaw), store)
  else
    (CreateResult.created normalizedEvent, mapSet store normalizedEvent)

/-- The candidate that `EventService.updateEventById` builds:
`{ ...existing, ...eventData }` keeps the stored id and takes every
payload field from `eventData`, then the priority branch and
`normalizeEvent` run as in create. -/
def mergedCandidate (priorityRaw : String) (existing : NEvent) (eventData : EventInput) : NEvent :=
  normalizeEvent
    { id := existing.id
      title := eventData.title
      description := eventData.description
      mode := eventData.mode
      venue := eventData.venue
      startTime := eventData.startTime
      endTime := eventData.endTime
      priority :=
        match eventData.priority with
        | some p => p
        | none => priorityOfText (generatePriority priorityRaw)
      tags := eventData.tags }

/-- Outcome of `EventService.updateEventById`; `invalidTimeRange` models
the thrown `Error('End time must be greater than start time')`. -/
inductive UpdateResult where
  | notFound
  | invalidTimeRange
  | conflictReport (conflicts : List NEvent) (suggestion : Option Suggestion)
  | updated (e : NEvent)
  deriving DecidableEq, Repr

/-- `EventService.updateEventById`: look the event up, merge, re-check the
time range defensively, detect conflicts (the merged candidate is excluded
from its own check by id), then commit or report. -/
def updateEventById (jsonParse : String → Option Suggestion) (priorityRaw suggestRaw : String)
    (eventId : String) (eventData : EventInput) (store : Store) : UpdateResult × Store :=
  match store.find? (fun e => e.id == eventId) with
  | none => (UpdateResult.notFound, store)
  | some existing =>
    let normalizedEvent := mergedCandidate priorityRaw existing eventData
    if normalizedEvent.startTime ≥ normalizedEvent.endTime then
      (UpdateResult.invalidTimeRange, store)
    else
      let conflicts := detectConflictsForEvent normalizedEvent store
      if 0 < conflicts.length then
        (UpdateResult.conflictReport conflicts (suggestBetterTime jsonParse suggestRaw), store)
      else
        (UpdateResult.updated normalizedEvent, mapSet store normalizedEvent)

/-- `EventService.deleteEventById`: return the removed event, or `none`
and an untouched store when the id is unknown. -/
def deleteEventById (eventId : String) (store : Store) : Option NEvent × Store :=
  match store.find? (fun e => e.id == eventId) with
  | none => (none, store)
  | some e => (some e, mapDelete store eventId)

/-- The wire payload before validation, with the fields `eventSchema`
inspects; optional fields model absent keys. -/
structure RawPayload where
  title : String
  description : String
  mode : Option String
  venue : String
  startTime : Int
  endTime : Int
  priority : Option String
  tags : Option (List String)
  deriving DecidableEq, Repr

/-- The `mode` field of `eventSchema`: enum with default `'offline'`. -/
def parseModeField (m : Option String) : Option Mode :=
  match m with
  | none => some Mode.offline
  | some s =>
    if s = "online" then some Mode.online
    else if s = "offline" then some Mode.offline
    else none

/-- The `priority` field of `eventSchema`: enum with default `'medium'`. -/
def parsePriorityField (p : Option String) : Option Priority :=
  match p with
  | none => some Priority.medium
  | some s =>
    if s = "high" then some Priority.high
    else if s = "medium" then some Priority.medium
    else if s = "low" then some Priority.low
    else none

/-- `eventSchema` from `src/validations/event.schema.ts`: trims and
length-checks the text fields, parses the enums with their defaults,
defaults `tags` to `[]` (each tag trimmed and non-empty), and refines
`endTime > startTime`.  `none` is a zod rejection. -/
def eventSchema (r : RawPayload) : Option EventInput :=
  let title := jsTrim r.title
  let description := jsTrim r.description
  let venue := jsTrim r.venue
  let tags := (r.tags.getD []).map jsTrim
  if 3 ≤ title.length ∧ title.length ≤ 100 then
    if 3 ≤ description.length ∧ description.length ≤ 300 then
      if 3 ≤ venue.length then
        if tags.all (fun t => 1 ≤ t.length) then
          match parseModeField r.mode, parsePriorityField r.priority with
          | some mode, some pr =>
            if r.endTime > r.startTime then
              some { title := title, description := description, mode := mode
                     venue := venue, startTime := r.startTime, endTime := r.endTime
                     priority := some pr, tags := tags }
            else none
          | _, _ => none
        else none
      else none
    else none
  else none

/-- One service request against the store, carrying the advisory response
texts and the `JSON.parse` capability it consumed. -/
inductive Op where
  | createOp (jsonParse : String → Option Suggestion) (priorityRaw suggestRaw : String)
      (input : EventInput) (newId : String)
  | updateOp (jsonParse : String → Option Suggestion) (priorityRaw suggestRaw : String)
      (eventId : String) (input : EventInput)
  | deleteOp (eventId : String)

/-- The store after one request. -/
def applyOp (store : Store) : Op → Store
  | .createOp f pR sR input newId => (createEvent f pR sR input newId store).2
  | .updateOp f pR sR eventId input => (updateEventById f pR sR eventId input store).2
  | .deleteOp eventId => (deleteEventById eventId store).2

/-- The store after a sequence of requests. -/
def runOps (store : Store) (ops : List Op) : Store :=
  ops.foldl applyOp store

/-- The upstream validation precondition of C7: create and update payloads
arrive with `startTime < endTime` (after conversion). -/
def validOp : Op → Prop
  | .createOp _ _ _ input _ => input.startTime < input.endTime
  | .updateOp _ _ _ _ input => input.startTime < input.endTime
  | .deleteOp _ => True

/-- The store invariant of C7: every stored event has a proper time range
and the stored ids are pairwise distinct. -/
def StoreInv (s : Store) : Prop :=
  (∀ e ∈ s, e.startTime < e.endTime) ∧ (s.map (fun e => e.id)).Nodup

/-- Concrete instantiation of the C1 theorem at a two-event schedule. -/
def evA : NEvent :=
  { id := "a", title := "Event A", description := "first", mode := .offline
    venue := "room", startTime := 0, endTime := 50, priority := .medium, tags := ["x"] }

def evB : NEvent :=
  { id := "b", title := "Event B", description := "second", mode := .offline
    venue := "room", startTime := 100, endTime := 200, priority := .medium, tags := ["x"] }

/-- Candidate that ends exactly when `evB` starts and overlaps `evA`. -/
def cand0 : NEvent :=
  { id := "c", title := "Candidate", description := "cand", mode := .offline
    venue := "room", startTime := 40, endTime := 100, priority := .medium, tags := [] }

/-- Candidate spanning both `evB` and `evA`, used against an
insertion-ordered (unsorted) schedule. -/
def candBA : NEvent :=
  { id := "z", title := "Spanning", description := "span", mode := .offline
    venue := "room", startTime := 0, endTime := 200, priority := .medium, tags := [] }

/-- Schema-validated input overlapping `evA`. -/
def inputC : EventInput :=
  { title := "Clash", description := "clash", mode := .offline, venue := "room"
    startTime := 10, endTime := 20, priority := some .medium, tags := [] }

/-- An input that bypassed the schema with `startTime >= endTime`. -/
def badInput : EventInput :=
  { title := "Bad", description := "bad", mode := .offline, venue := "room"
    startTime := 5, endTime := 3, priority := some .medium, tags := [] }

/-- Validated input mirroring `evA`'s interval. -/
def inputA : EventInput :=
  { title := "AAA", description := "aaa", mode := .offline, venue := "vvv"
    startTime := 0, endTime := 50, priority := some .medium, tags := ["x"] }

/-- Validated input mirroring `evB`'s interval. -/
def inputB : EventInput :=
  { title := "BBB", description := "bbb", mode := .offline, venue := "vvv"
    startTime := 100, endTime := 200, priority := some .medium, tags := ["x"] }

/-- A raw payload that omits `mode`, `priority` and `tags`. -/
def r0 : RawPayload :=
  { title := "Meeting", description := "Standup", mode := none, venue := "Room"
    startTime := 0, endTime := 10, priority := none, tags := none }

/-- The schema output on `r0`: defaults filled in. -/
def input0 : EventInput :=
  { title := "Meeting", description := "Standup", mode := .offline, venue := "Room"
    startTime := 0, endTime := 10, priority := some .medium, tags := [] }

/-- The store obtained by creating `inputB` and then `inputA`:
insertion order is descending by start time. -/
def storeBA : Store :=
  runOps [] [Op.createOp noParse "" "" inputB "b", Op.createOp noParse "" "" inputA "a"]


theorem mem_detectConflictsForEvent (event E : NEvent) (events : List NEvent) :
    E ∈ detectConflictsForEvent event events ↔
      E ∈ events ∧ E.id ≠ event.id ∧
        event.startTime < E.endTime ∧ event.endTime > E.startTime := by
  induction events with
  | nil => simp [detectConflictsForEvent]
  | cons e rest ih =>
    by_cases hid : e.id = event.id
    · rw [detectConflictsForEvent, if_pos hid]
      rw [ih]
      constructor
      · rintro ⟨hmem, hne, hov⟩
        exact ⟨List.mem_cons_of_mem _ hmem, hne, hov⟩
      · rintro ⟨hmem, hne, hov⟩
        rcases List.mem_cons.mp hmem with rfl | hmem
        · exact absurd hid hne
        · exact ⟨hmem, hne, hov⟩
    · rw [detectConflictsForEvent, if_neg hid]
      by_cases hov : event.startTime < e.endTime ∧ event.endTime > e.startTime
      · rw [if_pos hov]
        constructor
        · intro hmem
          rcases List.mem_cons.mp hmem with rfl | hmem
          · exact ⟨List.mem_cons_self _ _, hid, hov⟩
          · obtain ⟨h1, h2⟩ := ih.mp hmem
            exact ⟨List.mem_cons_of_mem _ h1, h2⟩
        · rintro ⟨hmem, hne, h1, h2⟩
          rcases List.mem_cons.mp hmem with rfl | hmem
          · exact List.mem_cons_self _ _
          · exact List.mem_cons_of_mem _ (ih.mpr ⟨hmem, hne, h1, h2⟩)
      · rw [if_neg hov]
        rw [ih]
        constructor
        · rintro ⟨hmem, hne, h12⟩
          exact ⟨List.mem_cons_of_mem _ hmem, hne, h12⟩
        · rintro ⟨hmem, hne, h1, h2⟩
          rcases List.mem_cons.mp hmem with rfl | hmem
          · exact absurd ⟨h1, h2⟩ hov
          · exact ⟨hmem, hne, h1, h2⟩

theorem detectConflictsForEvent_sublist (event : NEvent) (events : List NEvent) :
    List.Sublist (detectConflictsForEvent event events) events := by
  induction events with
  | nil => simp [detectConflictsForEvent]
  | cons e rest ih =>
    rw [detectConflictsForEvent]
    split
    · exact ih.cons e
    · split
      · exact ih.cons₂ e
      · exact ih.cons e

/-- C1: an existing event is reported as a conflict iff it is in the
schedule, its id differs from the candidate's, and the half-open intervals
overlap (`candidate.startTime < E.endTime` and `candidate.endTime >
E.startTime`); an event with the candidate's id is never reported, and two
valid events whose intervals merely touch at an endpoint are never
reported as conflicting. -/
theorem detectConflicts_halfOpen_overlap (cand E : NEvent) (evs : List NEvent)
    (hall : ∀ e ∈ evs, e.startTime < e.endTime)
    (hc : cand.startTime < cand.endTime) :
    (E ∈ detectConflictsForEvent cand evs ↔
      E ∈ evs ∧ E.id ≠ cand.id ∧
        cand.startTime < E.endTime ∧ cand.endTime > E.startTime)
    ∧ (∀ e ∈ detectConflictsForEvent cand evs, e.id ≠ cand.id)
    ∧ ((cand.endTime = E.startTime ∨ E.endTime = cand.startTime) →
        E ∉ detectConflictsForEvent cand evs) := by
  refine ⟨mem_detectConflictsForEvent cand E evs, ?_, ?_⟩
  · intro e he
    exact ((mem_detectConflictsForEvent cand e evs).mp he).2.1
  · intro htouch hmem
    obtain ⟨_, _, h1, h2⟩ := (mem_detectConflictsForEvent cand E evs).mp hmem
    rcases htouch with h | h
    · omega
    · omega


theorem detectConflicts_halfOpen_overlap_witness :
    (evB ∈ [evA, evB] ∧ evB.id ≠ cand0.id ∧
        cand0.startTime < evB.endTime ∧ cand0.endTime > evB.startTime →
      evB ∈ detectConflictsForEvent cand0 [evA, evB])
    ∧ evB ∉ detectConflictsForEvent cand0 [evA, evB] := by
  have h := detectConflicts_halfOpen_overlap cand0 evB [evA, evB]
    (by decide) (by decide)
  exact ⟨h.1.mpr, h.2.2 (by decide)⟩

theorem mem_mapSet (s : Store) (n e : NEvent) (he : e ∈ mapSet s n) : e ∈ s ∨ e = n := by
  unfold mapSet at he
  split at he
  · obtain ⟨x, hx, hxe⟩ := List.mem_map.mp he
    by_cases hid : x.id = n.id
    · rw [if_pos hid] at hxe
      right
      exact hxe.symm
    · rw [if_neg hid] at hxe
      left
      exact hxe ▸ hx
  · rcases List.mem_append.mp he with h | h
    · left
      exact h
    · right
      simpa using h

theorem createEvent_conflict_eq (f : String → Option Suggestion) (pR sR : String)
    (input : EventInput) (newId : String) (store : Store)
    (h : 0 < (detectConflictsForEvent (createdCandidate pR input newId) store).length) :
    createEvent f pR sR input newId store =
      (CreateResult.conflictReport
        (detectConflictsForEvent (createdCandidate pR input newId) store)
        (suggestBetterTime f sR), store) := by
  simp only [createEvent]
  rw [if_pos h]

/-- C2: when the candidate conflicts with a stored event, `createEvent`
returns the conflicting events together with the advisory suggestion
(possibly `none`, the explicit no-suggestion marker), does not insert the
candidate, and leaves the store — hence `getEvents`' length — unchanged. -/
theorem createEvent_conflict_no_commit (f : String → Option Suggestion) (pR sR : String)
    (input : EventInput) (newId : String) (store : Store)
    (h : ∃ e ∈ store, e.id ≠ (createdCandidate pR input newId).id ∧
          (createdCandidate pR input newId).startTime < e.endTime ∧
          (createdCandidate pR input newId).endTime > e.startTime) :
    createEvent f pR sR input newId store =
      (CreateResult.conflictReport
        (detectConflictsForEvent (createdCandidate pR input newId) store)
        (suggestBetterTime f sR), store)
    ∧ (createEvent f pR sR input newId store).2 = store
    ∧ (getEvents (createEvent f pR sR input newId store).2).length =
        (getEvents store).length := by
  obtain ⟨e, he, h1, h2, h3⟩ := h
  have hm : e ∈ detectConflictsForEvent (createdCandidate pR input newId) store :=
    (mem_detectConflictsForEvent _ e store).mpr ⟨he, h1, h2, h3⟩
  have hlen : 0 < (detectConflictsForEvent (createdCandidate pR input newId) store).length :=
    List.length_pos.mpr (List.ne_nil_of_mem hm)
  have heq := createEvent_conflict_eq f pR sR input newId store hlen
  exact ⟨heq, by rw [heq], by rw [heq]⟩

theorem createEvent_conflict_no_commit_witness :
    (createEvent noParse "" "" inputC "n1" [evA]).2 = [evA] :=
  (createEvent_conflict_no_commit noParse "" "" inputC "n1" [evA]
    ⟨evA, by decide, by decide, by decide, by decide⟩).2.1

/-- C3 is refuted on the create path: `normalizeEvent` performs no range
check and `createEvent` re-checks nothing before commit, so a candidate
with `startTime >= endTime` that bypasses the schema is committed. -/
theorem create_commits_invalid_range_counterexample :
    (createEvent noParse "" "" badInput "id1" []).1 =
      CreateResult.created (createdCandidate "" badInput "id1")
    ∧ ((createEvent noParse "" "" badInput "id1" []).2).map
        (fun e => (e.startTime, e.endTime)) = [(5, 3)]
    ∧ (5 : Int) ≥ 3 :=
  ⟨by decide, by decide, by decide⟩

theorem eventSchema_some (r : RawPayload) (input : EventInput)
    (h : eventSchema r = some input) :
    input.startTime = r.startTime ∧ input.endTime = r.endTime ∧
      r.startTime < r.endTime ∧ input.priority = parsePriorityField r.priority ∧
      (∃ p, input.priority = some p) := by
  simp only [eventSchema] at h
  repeat' split at h
  any_goals exact Option.noConfusion h
  rename_i hmode hpr hrange
  injection h with h2
  subst h2
  exact ⟨rfl, rfl, by omega, hpr.symm, ⟨_, rfl⟩⟩

/-- C3 (amended): the `startTime < endTime` check is enforced at the
schema boundary and re-enforced defensively before commit on the update
workflow only (which rejects with the invalid-time-range error and leaves
the store unchanged); the create workflow performs no defensive re-check,
but every schema-validated input satisfies `startTime < endTime`, so on
validated input it too never commits an event with `startTime >= endTime`. -/
theorem invalidTimeRange_boundary_and_update_check (f : String → Option Suggestion)
    (pR sR eventId newId : String) (input : EventInput) (r : RawPayload) (store : Store) :
    (eventSchema r = some input → input.startTime < input.endTime)
    ∧ (∀ existing, store.find? (fun e => e.id == eventId) = some existing →
        (mergedCandidate pR existing input).startTime ≥
          (mergedCandidate pR existing input).endTime →
        updateEventById f pR sR eventId input store = (UpdateResult.invalidTimeRange, store))
    ∧ (input.startTime < input.endTime →
        ∀ e ∈ (createEvent f pR sR input newId store).2, e ∈ store ∨ e.startTime < e.endTime) := by
  refine ⟨?_, ?_, ?_⟩
  · intro h
    obtain ⟨h1, h2, h3, _⟩ := eventSchema_some r input h
    rw [h1, h2]
    exact h3
  · intro existing hfind hge
    simp only [updateEventById, hfind]
    rw [if_pos hge]
  · intro hlt e he
    simp only [createEvent] at he
    split at he
    · exact Or.inl he
    · rcases mem_mapSet store _ e he with h | rfl
      · exact Or.inl h
      · exact Or.inr hlt

theorem invalidTimeRange_boundary_and_update_check_witness :
    input0.startTime < input0.endTime
    ∧ updateEventById noParse "" "" "a" badInput [evA] =
        (UpdateResult.invalidTimeRange, [evA]) := by
  have h := invalidTimeRange_boundary_and_update_check noParse "" "" "a" "id9"
    badInput r0 [evA]
  have h0 := invalidTimeRange_boundary_and_update_check noParse "" "" "a" "id9"
    input0 r0 [evA]
  exact ⟨h0.1 (by decide), h.2.1 evA (by decide) (by decide)⟩

/-- C4 is refuted: the schedule list handed to the detector is the Map's
insertion order, and the detector preserves that order, so against the
reachable insertion-ordered schedule `[evB, evA]` the conflicts come back
descending by start time, not ascending. -/
theorem detectConflicts_order_counterexample :
    (detectConflictsForEvent candBA [evB, evA]).map (fun e => e.startTime) = [100, 0]
    ∧ ¬ List.Sorted eventLe (detectConflictsForEvent candBA [evB, evA]) :=
  ⟨by decide, by decide⟩

/-- C4 (amended): `detectConflictsForEvent` returns a subsequence of the
schedule list in the schedule's own (insertion) order — so the conflicts
are ascending by start time exactly when the schedule list passed in is —
and, being a pure function of its arguments, it mutates neither the
candidate nor the schedule. -/
theorem detectConflicts_preserves_order (cand : NEvent) (evs : List NEvent) :
    List.Sublist (detectConflictsForEvent cand evs) evs
    ∧ (List.Sorted eventLe evs → List.Sorted eventLe (detectConflictsForEvent cand evs)) :=
  ⟨detectConflictsForEvent_sublist cand evs,
    fun h => List.Pairwise.sublist (detectConflictsForEvent_sublist cand evs) h⟩

theorem detectConflicts_preserves_order_witness :
    List.Sublist (detectConflictsForEvent candBA [evA, evB]) [evA, evB]
    ∧ List.Sorted eventLe (detectConflictsForEvent candBA [evA, evB]) :=
  ⟨(detectConflicts_preserves_order candBA [evA, evB]).1,
    (detectConflicts_preserves_order candBA [evA, evB]).2 (by decide)⟩

/-- C5 is refuted on its "returns the response itself" reading: the raw
response `"Low"` normalizes to the token `"low"`, and the function returns
the normalized token `"low"`, not the response `"Low"` itself. -/
theorem generatePriority_counterexample :
    jsTrim (jsToLower "Low") = "low"
    ∧ generatePriority "Low" = "low"
    ∧ generatePriority "Low" ≠ "Low" :=
  ⟨by decide, by decide, by decide⟩

/-- C5 (amended): `generatePriority` returns the trimmed, lowercased
response when that normalized form is exactly one of the three tokens, and
`"medium"` for every other response; it is a total function (never raises),
always yielding one of the three tokens, so priority assignment never
blocks event creation. -/
theorem generatePriority_fallback (raw : String) :
    ((jsTrim (jsToLower raw) = "low" ∨ jsTrim (jsToLower raw) = "medium" ∨
        jsTrim (jsToLower raw) = "high") →
      generatePriority raw = jsTrim (jsToLower raw))
    ∧ (¬ (jsTrim (jsToLower raw) = "low" ∨ jsTrim (jsToLower raw) = "medium" ∨
        jsTrim (jsToLower raw) = "high") →
      generatePriority raw = "medium")
    ∧ (generatePriority raw = "low" ∨ generatePriority raw = "medium" ∨
        generatePriority raw = "high") := by
  refine ⟨?_, ?_, ?_⟩
  · intro h
    simp only [generatePriority]
    rw [if_pos h]
  · intro h
    simp only [generatePriority]
    rw [if_neg h]
  · by_cases h : jsTrim (jsToLower raw) = "low" ∨ jsTrim (jsToLower raw) = "medium" ∨
        jsTrim (jsToLower raw) = "high"
    · simp only [generatePriority]
      rw [if_pos h]
      exact h
    · simp only [generatePriority]
      rw [if_neg h]
      exact Or.inr (Or.inl rfl)

theorem generatePriority_fallback_witness :
    generatePriority "  HIGH " = jsTrim (jsToLower "  HIGH ")
    ∧ generatePriority "urgent!" = "medium" :=
  ⟨(generatePriority_fallback "  HIGH ").1 (by decide),
    (generatePriority_fallback "urgent!").2.1 (by decide)⟩

/-- C6: when the advisory response contains no fenced JSON block, or when
`JSON.parse` fails on the extracted block, `suggestBetterTime` yields
`none` (the `AdvisoryUnavailable` outcome) rather than any fabricated
time; and on the conflicting create path the caller receives the conflict
report carrying exactly that (possibly `none`) suggestion alongside the
conflicting events. -/
theorem suggestBetterTime_unavailable (f : String → Option Suggestion) (text pR : String)
    (input : EventInput) (newId : String) (store : Store) :
    (extractJsonBlock text = none → suggestBetterTime f text = none)
    ∧ (∀ block, extractJsonBlock text = some block → f block = none →
        suggestBetterTime f text = none)
    ∧ (0 < (detectConflictsForEvent (createdCandidate pR input newId) store).length →
        createEvent f pR text input newId store =
          (CreateResult.conflictReport
            (detectConflictsForEvent (createdCandidate pR input newId) store)
            (suggestBetterTime f text), store)) := by
  refine ⟨?_, ?_, ?_⟩
  · intro h
    simp only [suggestBetterTime, h]
  · intro block h1 h2
    simp only [suggestBetterTime, h1, h2]
  · exact createEvent_conflict_eq f pR text input newId store

theorem suggestBetterTime_unavailable_witness :
    suggestBetterTime noParse "no json here" = none
    ∧ createEvent noParse "" "no json here" inputC "n2" [evA] =
        (CreateResult.conflictReport
          (detectConflictsForEvent (createdCandidate "" inputC "n2") [evA])
          (suggestBetterTime noParse "no json here"), [evA]) :=
  ⟨(suggestBetterTime_unavailable noParse "no json here" "" inputC "n2" [evA]).1 (by decide),
    (suggestBetterTime_unavailable noParse "no json here" "" inputC "n2" [evA]).2.2 (by decide)⟩

theorem map_id_mapSet (s : Store) (n : NEvent) (hn : ∃ x ∈ s, x.id = n.id) :
    (mapSet s n).map (fun e => e.id) = s.map (fun e => e.id) := by
  unfold mapSet
  rw [if_pos hn, List.map_map]
  apply List.map_congr_left
  intro x hx
  by_cases h : x.id = n.id
  · simp [h]
  · simp [h]

theorem storeInv_mapSet (s : Store) (n : NEvent) (hinv : StoreInv s)
    (hn : n.startTime < n.endTime) : StoreInv (mapSet s n) := by
  obtain ⟨h1, h2⟩ := hinv
  constructor
  · intro e he
    rcases mem_mapSet s n e he with h | rfl
    · exact h1 e h
    · exact hn
  · by_cases hex : ∃ x ∈ s, x.id = n.id
    · rw [map_id_mapSet s n hex]
      exact h2
    · unfold mapSet
      rw [if_neg hex, List.map_append]
      rw [List.nodup_append]
      refine ⟨h2, List.nodup_singleton _, ?_⟩
      intro a ha hb
      simp only [List.map_cons, List.map_nil, List.mem_singleton] at hb
      obtain ⟨x, hx, hxa⟩ := List.mem_map.mp ha
      exact hex ⟨x, hx, by rw [hxa, hb]⟩

theorem storeInv_applyOp (s : Store) (op : Op) (hinv : StoreInv s) (hop : validOp op) :
    StoreInv (applyOp s op) := by
  cases op with
  | createOp f pR sR input newId =>
    simp only [applyOp, createEvent]
    split
    · exact hinv
    · exact storeInv_mapSet s _ hinv hop
  | updateOp f pR sR eventId input =>
    simp only [applyOp, updateEventById]
    split
    · exact hinv
    · split
      · exact hinv
      · rename_i hge
        split
        · exact hinv
        · exact storeInv_mapSet s _ hinv (by omega)
  | deleteOp eventId =>
    simp only [applyOp, deleteEventById]
    split
    · exact hinv
    · obtain ⟨h1, h2⟩ := hinv
      constructor
      · intro e he
        exact h1 e (List.mem_of_mem_filter he)
      · exact h2.sublist (List.Sublist.map _ (List.filter_sublist s))

theorem storeInv_runOps (ops : List Op) : ∀ s, StoreInv s → (∀ op ∈ ops, validOp op) →
    StoreInv (runOps s ops) := by
  induction ops with
  | nil =>
    intro s hs _
    exact hs
  | cons op rest ih =>
    intro s hs hops
    exact ih (applyOp s op)
      (storeInv_applyOp s op hs (hops op (List.mem_cons_self _ _)))
      (fun o ho => hops o (List.mem_cons_of_mem _ ho))

theorem update_map_id (f : String → Option Suggestion) (pR sR eventId : String)
    (input : EventInput) (s : Store) :
    ((updateEventById f pR sR eventId input s).2).map (fun e => e.id) =
      s.map (fun e => e.id) := by
  unfold updateEventById
  cases hfind : s.find? (fun e => e.id == eventId) with
  | none => rfl
  | some existing =>
    simp only
    split
    · rfl
    · split
      · rfl
      · exact map_id_mapSet s _ ⟨existing, List.mem_of_find?_eq_some hfind, rfl⟩

/-- C7: across any sequence of create, update and delete requests whose
create/update inputs satisfy the upstream `startTime < endTime`
precondition, the store invariant is preserved: every stored event has
`startTime < endTime` and the stored ids are pairwise distinct; moreover
an update never changes any stored id (it replaces the event in place
under the existing id). -/
theorem storeInvariant_preserved (s : Store) (ops : List Op)
    (hs : StoreInv s) (hops : ∀ op ∈ ops, validOp op) :
    StoreInv (runOps s ops)
    ∧ (∀ f pR sR eventId input,
        ((updateEventById f pR sR eventId input s).2).map (fun e => e.id) =
          s.map (fun e => e.id)) :=
  ⟨storeInv_runOps ops s hs hops,
    fun f pR sR eventId input => update_map_id f pR sR eventId input s⟩

/-- Sequence of requests exercising all three operations. -/
def ops0 : List Op :=
  [Op.createOp noParse "" "" inputA "a", Op.updateOp noParse "" "" "a" inputB,
    Op.deleteOp "a"]

theorem storeInvariant_preserved_witness : StoreInv (runOps [] ops0) := by
  have h := storeInvariant_preserved [] ops0 ⟨by simp, by simp⟩ ?_
  · exact h.1
  · intro op hop
    rcases List.mem_cons.mp hop with rfl | hop
    · show inputA.startTime < inputA.endTime
      decide
    rcases List.mem_cons.mp hop with rfl | hop
    · show inputB.startTime < inputB.endTime
      decide
    rcases List.mem_cons.mp hop with rfl | hop
    · trivial
    · exact absurd hop (List.not_mem_nil _)

/-- C8: `getEvents` returns the stored events sorted ascending by
`startTime` (a permutation of the store, sorted by a stable comparator
whose tie-break is the store's insertion order), and — being a pure
function of the store — two calls with no intervening mutation return
identical ordered sequences. -/
theorem getEvents_sorted_deterministic (s : Store) :
    List.Sorted eventLe (getEvents s)
    ∧ List.Perm (getEvents s) s
    ∧ getEvents s = getEvents s :=
  ⟨List.sorted_insertionSort eventLe s, List.perm_insertionSort eventLe s, rfl⟩

/-- C9 is refuted on the ordering: `filterEventsByTag` filters the Map's
value sequence directly, without sorting, so on the reachable store
`storeBA` (created descending) it returns the tagged events in insertion
order `[100, 0]` while `getEvents` lists them as `[0, 100]`. -/
theorem filterByTag_order_counterexample :
    (filterEventsByTag "x" storeBA).map (fun e => e.startTime) = [100, 0]
    ∧ (getEvents storeBA).map (fun e => e.startTime) = [0, 100]
    ∧ filterEventsByTag "x" storeBA ≠ getEvents storeBA :=
  ⟨by decide, by decide, by decide⟩

/-- C9 (amended): `filterEventsByTag` returns exactly the stored events
whose `tags` include the tag, as a subsequence of the store's value
sequence — i.e. in Map insertion order, which coincides with `getEvents`'
start-time order only when the store happens to be sorted — and it does
not mutate the store (it is a pure filter of a copy). -/
theorem filterByTag_members_order (tag : String) (s : Store) (e : NEvent) :
    (e ∈ filterEventsByTag tag s ↔ e ∈ s ∧ tag ∈ e.tags)
    ∧ List.Sublist (filterEventsByTag tag s) s := by
  constructor
  · simp [filterEventsByTag, List.mem_filter]
  · exact List.filter_sublist s

/-- C10: a schema-validated payload always carries a `priority` (the
schema substitutes `'medium'` when the caller omits it), so `createEvent`'s
AI-priority branch is never taken on validated input — the result is
independent of the priority advisory response — and any committed event's
priority is exactly the validated one: the caller's when given, the
default `'medium'` otherwise. -/
theorem schema_priority_always_present (r : RawPayload) (input : EventInput)
    (f : String → Option Suggestion) (pR pR2 sR newId : String) (store : Store)
    (h : eventSchema r = some input) :
    input.priority = parsePriorityField r.priority
    ∧ input.priority ≠ none
    ∧ (r.priority = none → input.priority = some Priority.medium)
    ∧ createEvent f pR sR input newId store = createEvent f pR2 sR input newId store
    ∧ (∀ e, (createEvent f pR sR input newId store).1 = CreateResult.created e →
        some e.priority = input.priority) := by
  obtain ⟨_, _, _, h4, p, hp⟩ := eventSchema_some r input h
  refine ⟨h4, by simp [hp], ?_, ?_, ?_⟩
  · intro hnone
    rw [h4, hnone]
    rfl
  · simp only [createEvent, createdCandidate, hp]
  · intro e he
    simp only [createEvent] at he
    split at he
    · exact absurd he (by simp)
    · injection he with h2
      rw [← h2, hp]
      simp [createdCandidate, normalizeEvent, hp]

theorem schema_priority_always_present_witness :
    input0.priority = some Priority.medium
    ∧ createEvent noParse "aaa" "" input0 "id7" [] =
        createEvent noParse "bbb" "" input0 "id7" [] := by
  have h := schema_priority_always_present r0 input0 noParse "aaa" "bbb" "" "id7" []
    (by decide)
  exact ⟨h.2.2.1 rfl, h.2.2.2.1⟩
